import Mathlib

/-!
# Verification of the rdf-splitter chunking engine

Shallow embedding of the Rust sources (`src/format.rs`, `src/main.rs`,
`src/serialise.rs`, `src/splitter.rs`) of the `rdf-splitter` repository,
together with proofs about the embedded definitions.

Conventions of the embedding:
* The decoders (rio parsers, serde_json) are external crates; the split
  loops are therefore modelled as functions of the already-decoded record
  stream (a `List` of records), which is exactly the sequence of callback
  invocations the parser performs on a successfully parsed file.
* File-system effects (`write_triple_chunk` / `write_quad_chunk` /
  the JSON-LD flush closure) are modelled by a write outcome oracle
  `Nat → Option SplitterError` indexed by the write-attempt counter:
  `none` means the chunk file was written, `some e` means the write
  failed with error `e` (overwrite check or I/O).
* Progress display (`show_progress`, `clear_progress`) writes to stderr
  only and is omitted.
-/

namespace RdfSplitter

/-- `RdfFormat` from `src/format.rs`. -/
inductive RdfFormat where
  | Turtle
  | NTriples
  | NQuads
  | TriG
  | RdfXml
  | JsonLd
deriving DecidableEq, Repr

/-- `RdfFormat::from_path` from `src/format.rs`, modelled on the lowercased
extension string of the path (the `to_lowercase` is applied by the source
before the match). -/
def RdfFormat.from_ext (ext : String) : Option RdfFormat :=
  if ext = "ttl" then some .Turtle
  else if ext = "nt" then some .NTriples
  else if ext = "nq" ∨ ext = "nquads" then some .NQuads
  else if ext = "trig" then some .TriG
  else if ext = "rdf" ∨ ext = "owl" ∨ ext = "xml" then some .RdfXml
  else if ext = "jsonld" ∨ ext = "json-ld" ∨ ext = "json" then some .JsonLd
  else none

/-- `RdfFormat::extension` from `src/format.rs`. -/
def RdfFormat.extension : RdfFormat → String
  | .Turtle => "ttl"
  | .NTriples => "nt"
  | .NQuads => "nq"
  | .TriG => "trig"
  | .RdfXml => "rdf"
  | .JsonLd => "jsonld"

/-- `SplitterError` from `src/format.rs` (error payloads kept as the
formatted strings the source stores). -/
inductive SplitterError where
  | UnsupportedFormat (path : String)
  | OutputDirMissing (dir : String)
  | OutputExists (path : String)
  | Io (msg : String)
  | Parse (msg : String)
  | Other (msg : String)
deriving DecidableEq, Repr

/-- `OwnedTriple` from `src/serialise.rs`: the owned string form of a
decoded triple (subject, predicate, object in surface syntax). -/
structure OwnedTriple where
  subject : String
  predicate : String
  object : String
deriving DecidableEq, Repr

/-- `OwnedQuad` from `src/serialise.rs`. -/
structure OwnedQuad where
  triple : OwnedTriple
  graph_name : Option String
deriving DecidableEq, Repr

/-- `SplitOptions` from `src/splitter.rs` (the `output_dir` path is kept
as a string). -/
structure SplitOptions where
  output_dir : String
  chunk_size : Nat
  force : Bool
deriving DecidableEq, Repr

/-! ## The streaming chunk loop of `split_triples` / `split_quads` /
`split_jsonld_file` (`src/splitter.rs` lines 129-214, 239-315, 339-408).

The three functions share the identical buffer/flush/rotate logic; it is
embedded once, generic in the record type `α`.  The mutable locals
`triples`/`quads`, `chunk`, `total`, `flush_err` of the source become the
fields of `SplitState`; `written` records the chunk files produced so far
(index paired with buffered records) and `attempts` counts the calls to
`write_triple_chunk`/`write_quad_chunk` so the oracle can be consulted. -/

/-- Outcome oracle for chunk-file writes: argument is the running count of
write attempts, `none` is success, `some e` the captured error. -/
def WriteOutcome := Nat → Option SplitterError

/-- The oracle of an untroubled file system: every write succeeds. -/
def allOk : WriteOutcome := fun _ => none

/-- An oracle under which every chunk write fails with an I/O error. -/
def failingWrites : WriteOutcome := fun _ => some (.Io "disk full")

/-- The mutable state of one split loop. -/
structure SplitState (α : Type) where
  buf : List α
  chunk : Nat
  total : Nat
  flushErr : Option SplitterError
  written : List (Nat × List α)
  attempts : Nat
deriving DecidableEq, Repr

/-- The initial state of the loop (`Vec::new`, counters zero). -/
def initState {α : Type} : SplitState α :=
  ⟨[], 0, 0, none, [], 0⟩

/-- The `flush` closure of `split_triples`/`split_quads`/`split_jsonld_file`:
skip when the buffer is empty; otherwise attempt the chunk write; on success
advance the chunk index, add to the total and clear the buffer; on failure
record the error in `flush_err` (the buffer is kept). -/
def flushStep {α : Type} (w : WriteOutcome) (st : SplitState α) : SplitState α :=
  if st.buf.isEmpty then st
  else
    match w st.attempts with
    | none =>
        { buf := []
          chunk := st.chunk + 1
          total := st.total + st.buf.length
          flushErr := st.flushErr
          written := st.written ++ [(st.chunk, st.buf)]
          attempts := st.attempts + 1 }
    | some e =>
        { st with flushErr := some e, attempts := st.attempts + 1 }

/-- The `on_triple`/`on_quad` parser callback: push the decoded record,
then flush when the buffer length has reached `chunk_size`.  The source
callback always returns `Ok(())`, so the parser continues with the next
record unconditionally. -/
def onRecord {α : Type} (cs : Nat) (w : WriteOutcome) (st : SplitState α)
    (r : α) : SplitState α :=
  let st' := { st with buf := st.buf ++ [r] }
  if cs ≤ st'.buf.length then flushStep w st' else st'

/-- Running the parse loop over the decoded record stream `l`. -/
def runParse {α : Type} (cs : Nat) (w : WriteOutcome) (l : List α) :
    SplitState α :=
  l.foldl (onRecord cs w) initState

/-- The tail of `split_triples`/`split_quads`/`split_jsonld_file` after
`parse_all` returns: first a recorded `flush_err` is returned, then a
non-empty remainder buffer is written as a final chunk (propagating its
write error), and the record total is returned.  On success the returned
list contains every chunk file written, as (index, records) pairs in
creation order. -/
def split_stream {α : Type} (cs : Nat) (w : WriteOutcome) (l : List α) :
    Except SplitterError (Nat × List (Nat × List α)) :=
  let st := runParse cs w l
  match st.flushErr with
  | some e => .error e
  | none =>
      if st.buf.isEmpty then .ok (st.total, st.written)
      else
        match w st.attempts with
        | some e => .error e
        | none => .ok (st.total + st.buf.length, st.written ++ [(st.chunk, st.buf)])

/-- `split_triples` (`src/splitter.rs` line 129) is the loop at record
type `OwnedTriple`. -/
def split_triples (cs : Nat) (w : WriteOutcome) (l : List OwnedTriple) :
    Except SplitterError (Nat × List (Nat × List OwnedTriple)) :=
  split_stream cs w l

/-- `split_quads` (`src/splitter.rs` line 239) is the loop at record
type `OwnedQuad`. -/
def split_quads (cs : Nat) (w : WriteOutcome) (l : List OwnedQuad) :
    Except SplitterError (Nat × List (Nat × List OwnedQuad)) :=
  split_stream cs w l

/-- The loop of `count_records` (`src/splitter.rs` line 43) for the five
parser-backed formats: one pass over the same decoded stream, incrementing
a counter per record. -/
def count_stream {α : Type} (l : List α) : Nat :=
  l.foldl (fun n _ => n + 1) 0

/-- The chunk-size derivation of `run` (`src/main.rs` lines 72-77):
`(total + fc - 1) / fc` (ceiling division) floored at 1 via `.max(1)`. -/
def derive_chunk_size (total fc : Nat) : Nat :=
  max ((total + fc - 1) / fc) 1

/-! ## Specification-side chunking function

`chunkSpec cs b l` describes what the parse loop does to the buffer under
the always-successful write oracle: starting from buffer `b`, process the
records of `l` one at a time; a chunk is completed exactly when the buffer
length reaches `cs`.  Returns the completed chunks in order and the final
buffer. -/
def chunkSpec {α : Type} (cs : Nat) : List α → List α → List (List α) × List α
  | b, [] => ([], b)
  | b, r :: rs =>
      if cs ≤ (b ++ [r]).length then
        ((b ++ [r]) :: (chunkSpec cs [] rs).1, (chunkSpec cs [] rs).2)
      else
        chunkSpec cs (b ++ [r]) rs

/-- The chunk files a successful split of stream `l` produces:
the completed chunks indexed from 0, followed by the non-empty remainder
buffer as a final chunk. -/
def splitFiles {α : Type} (cs : Nat) (l : List α) : List (Nat × List α) :=
  let p := chunkSpec cs ([] : List α) l
  (List.range p.1.length).zip p.1 ++
    (if p.2.isEmpty then [] else [(p.1.length, p.2)])

/-! ## Path and overwrite policy (`src/splitter.rs` lines 553-575)

The file system is abstracted to the existence booleans the source
queries (`path.exists()`, `dir.exists()`). -/

/-- `format!("{:04}", n)`: decimal rendering zero-padded on the left to a
minimum width of 4. -/
def pad4 (n : Nat) : String :=
  ⟨List.replicate (4 - (toString n).length) '0' ++ (toString n).data⟩

/-- `chunk_path` (`src/splitter.rs` line 553): output path
`{output_dir}/{stem}_{chunk:04}.{extension}` where `stem` is the input
file stem and the extension is the canonical one of the format. -/
def chunk_path (stem : String) (fmt : RdfFormat) (chunk : Nat)
    (output_dir : String) : String :=
  output_dir ++ "/" ++ stem ++ "_" ++ pad4 chunk ++ "." ++ fmt.extension

/-- `check_overwrite` (`src/splitter.rs` line 559). -/
def check_overwrite (path : String) (pathExists force : Bool) :
    Except SplitterError Unit :=
  if pathExists && !force then .error (.OutputExists path) else .ok ()

/-- `prepare_output_dir` (`src/splitter.rs` line 566).  The returned `Bool`
records whether `fs::create_dir_all` was invoked (the directory, parents
included, was created). -/
def prepare_output_dir (dir : String) (dirExists force : Bool) :
    Except SplitterError Bool :=
  if dirExists then .ok false
  else if !force then .error (.OutputDirMissing dir)
  else .ok true

/-! ## String helpers of `src/serialise.rs` and `src/splitter.rs`

Rust byte-index based substring operations are modelled on the character
list `String.data`; the patterns searched for are ASCII, and UTF-8
preserves code-point order, so the induced slicing agrees with the byte
slicing of the source. -/

/-- `str::replace` with a single-character pattern: every occurrence of the
character is replaced by `rep`. -/
def replaceChar (c : Char) (rep : List Char) (s : List Char) : List Char :=
  s.flatMap (fun x => if x = c then rep else [x])

/-- `xml_escape` (`src/serialise.rs` line 260): chained replacement of
`&`, `<`, `>`, `"`, in this order. -/
def xml_escape (s : String) : String :=
  ⟨replaceChar '"' "&quot;".data
    (replaceChar '>' "&gt;".data
      (replaceChar '<' "&lt;".data
        (replaceChar '&' "&amp;".data s.data)))⟩

/-- `nt_escape` (`src/splitter.rs` line 530): chained replacement of
backslash, quote, newline, carriage return, tab, in this order. -/
def nt_escape (s : String) : String :=
  ⟨replaceChar '\t' "\\t".data
    (replaceChar '\r' "\\r".data
      (replaceChar '\n' "\\n".data
        (replaceChar '"' "\\\"".data
          (replaceChar '\\' "\\\\".data s.data))))⟩

/-- Index of the first occurrence of `pat` in `s` (`str::find` for string
patterns). -/
def firstOcc (pat s : List Char) : Option Nat :=
  (List.range (s.length + 1)).find? (fun i => pat.isPrefixOf (s.drop i))

/-- Index of the last occurrence of `pat` in `s` (`str::rfind` for string
patterns). -/
def lastOcc (pat s : List Char) : Option Nat :=
  ((List.range (s.length + 1)).filter (fun i => pat.isPrefixOf (s.drop i))).getLast?

/-- `try_strip_angles` (`src/serialise.rs` line 219): `starts_with('<')`
and `ends_with('>')`, then the slice `[1..len-1]`. -/
def try_strip_angles (s : String) : Option String :=
  if "<".data.isPrefixOf s.data ∧ ">".data.isSuffixOf s.data then
    some ⟨(s.data.drop 1).dropLast⟩
  else
    none

/-- `strip_angles` (`src/serialise.rs` line 215). -/
def strip_angles (s : String) : String :=
  (try_strip_angles s).getD s

/-- `try_lang_literal` (`src/serialise.rs` line 228): split a
`"lit"@lang` surface form at the last `"@` occurrence; the literal part
drops all leading quotes and cuts at its last quote. -/
def try_lang_literal (s : String) : Option (String × String) :=
  match lastOcc ['"', '@'] s.data with
  | some pos =>
      let lang : List Char := s.data.drop (pos + 2)
      let lit0 : List Char := s.data.dropWhile (fun c => c = '"')
      let lit : List Char := lit0.take ((lastOcc ['"'] lit0).getD lit0.length)
      some (⟨lit⟩, ⟨lang⟩)
  | none => none

/-- `try_typed_literal` (`src/serialise.rs` line 240): split a
`"lit"^^<dt>` surface form at the first `"^^<` occurrence; the datatype
part runs to the last character exclusive; the literal part drops all
leading quotes and cuts at its first quote. -/
def try_typed_literal (s : String) : Option (String × String) :=
  match firstOcc ['"', '^', '^', '<'] s.data with
  | some pos =>
      let lit0 : List Char := s.data.dropWhile (fun c => c = '"')
      let lit : List Char := lit0.take ((firstOcc ['"'] lit0).getD lit0.length)
      let dt : List Char := (s.data.drop (pos + 4)).dropLast
      some (⟨lit⟩, ⟨dt⟩)
  | none => none

/-- `plain_literal` (`src/serialise.rs` line 251). -/
def plain_literal (s : String) : String :=
  let t : List Char := s.data.dropWhile (fun c => c = '"')
  match lastOcc ['"'] t with
  | some p => ⟨t.take p⟩
  | none => ⟨t⟩

/-! ## The encoders of `src/serialise.rs`, as line lists -/

/-- The line `write_ntriples` emits for one triple. -/
def ntriple_line (t : OwnedTriple) : String :=
  t.subject ++ " " ++ t.predicate ++ " " ++ t.object ++ " ."

/-- `write_ntriples` (`src/serialise.rs` line 45): one line per triple, in
batch order. -/
def write_ntriples_lines (ts : List OwnedTriple) : List String :=
  ts.map ntriple_line

/-- The line `write_nquads` emits for one quad. -/
def nquad_line (q : OwnedQuad) : String :=
  match q.graph_name with
  | some g =>
      q.triple.subject ++ " " ++ q.triple.predicate ++ " " ++ q.triple.object
        ++ " " ++ g ++ " ."
  | none =>
      q.triple.subject ++ " " ++ q.triple.predicate ++ " " ++ q.triple.object
        ++ " ."

/-- `write_nquads` (`src/serialise.rs` line 55). -/
def write_nquads_lines (qs : List OwnedQuad) : List String :=
  qs.map nquad_line

/-- `write_turtle` (`src/serialise.rs` line 81) delegates to
`write_ntriples`. -/
def write_turtle_lines (ts : List OwnedTriple) : List String :=
  write_ntriples_lines ts

/-- `write_trig` (`src/serialise.rs` line 90) delegates to
`write_nquads`. -/
def write_trig_lines (qs : List OwnedQuad) : List String :=
  write_nquads_lines qs

/-- The child element line `write_rdfxml` (`src/serialise.rs` lines
119-148) emits for one triple, chosen by the object's lexical shape. -/
def rdfxml_child (t : OwnedTriple) : String :=
  let pred := strip_angles t.predicate
  match try_strip_angles t.object with
  | some obj_iri =>
      "    <" ++ pred ++ " rdf:resource=\"" ++ xml_escape obj_iri ++ "\"/>"
  | none =>
      match try_lang_literal t.object with
      | some (lit, lang) =>
          "    <" ++ pred ++ " xml:lang=\"" ++ lang ++ "\">" ++ xml_escape lit
            ++ "</" ++ pred ++ ">"
      | none =>
          match try_typed_literal t.object with
          | some (lit, dt) =>
              "    <" ++ pred ++ " rdf:datatype=\"" ++ xml_escape dt ++ "\">"
                ++ xml_escape lit ++ "</" ++ pred ++ ">"
          | none =>
              "    <" ++ pred ++ ">" ++ xml_escape (plain_literal t.object)
                ++ "</" ++ pred ++ ">"

/-- The three lines `write_rdfxml` emits for one triple. -/
def rdfxml_triple_lines (t : OwnedTriple) : List String :=
  ["  <rdf:Description rdf:about=\"" ++ xml_escape (strip_angles t.subject) ++ "\">",
   rdfxml_child t,
   "  </rdf:Description>"]

/-- `write_rdfxml` (`src/serialise.rs` line 98): header, one block per
triple in batch order, footer. -/
def write_rdfxml_lines (ts : List OwnedTriple) : List String :=
  ["<?xml version=\"1.0\" encoding=\"utf-8\"?>",
   "<rdf:RDF xmlns:rdf=\"http://www.w3.org/1999/02/22-rdf-syntax-ns#\">"]
    ++ ts.flatMap rdfxml_triple_lines
    ++ ["</rdf:RDF>"]

/-! ## Specification-side description of the RDF/XML child element -/

/-- The lexical shapes of an object term the claim distinguishes,
classified with the source's helpers in the source's order. -/
inductive ObjShape where
  | iriRef (iri : String)
  | langLit (lit lang : String)
  | typedLit (lit dt : String)
  | plainLit (lit : String)
deriving DecidableEq, Repr

/-- Classify an object term by its lexical shape. -/
def objShape (o : String) : ObjShape :=
  match try_strip_angles o with
  | some i => .iriRef i
  | none =>
      match try_lang_literal o with
      | some (lit, lang) => .langLit lit lang
      | none =>
          match try_typed_literal o with
          | some (lit, dt) => .typedLit lit dt
          | none => .plainLit (plain_literal o)

/-- The child element as the claim words it: IRI object → resource
reference attribute; language-tagged literal → language attribute plus
escaped text; datatype-tagged literal → datatype attribute plus escaped
text; plain literal → escaped text; with ALL attribute and text content
(the language tag included) passed through XML entity escaping. -/
def xml_child_claimed (pred : String) : ObjShape → String
  | .iriRef iri =>
      "    <" ++ pred ++ " rdf:resource=\"" ++ xml_escape iri ++ "\"/>"
  | .langLit lit lang =>
      "    <" ++ pred ++ " xml:lang=\"" ++ xml_escape lang ++ "\">"
        ++ xml_escape lit ++ "</" ++ pred ++ ">"
  | .typedLit lit dt =>
      "    <" ++ pred ++ " rdf:datatype=\"" ++ xml_escape dt ++ "\">"
        ++ xml_escape lit ++ "</" ++ pred ++ ">"
  | .plainLit lit =>
      "    <" ++ pred ++ ">" ++ xml_escape lit ++ "</" ++ pred ++ ">"

/-- The child element as amended: identical to the claimed form except
that the language tag attribute value is written verbatim, without XML
entity escaping. -/
def xml_child_amended (pred : String) : ObjShape → String
  | .iriRef iri =>
      "    <" ++ pred ++ " rdf:resource=\"" ++ xml_escape iri ++ "\"/>"
  | .langLit lit lang =>
      "    <" ++ pred ++ " xml:lang=\"" ++ lang ++ "\">"
        ++ xml_escape lit ++ "</" ++ pred ++ ">"
  | .typedLit lit dt =>
      "    <" ++ pred ++ " rdf:datatype=\"" ++ xml_escape dt ++ "\">"
        ++ xml_escape lit ++ "</" ++ pred ++ ">"
  | .plainLit lit =>
      "    <" ++ pred ++ ">" ++ xml_escape lit ++ "</" ++ pred ++ ">"

/-! ## `write_jsonld` record emission order (`src/serialise.rs` line 156)

`write_jsonld` groups the batch in a `BTreeMap` keyed by subject (keys
iterated in ascending string order, entries per key in insertion order),
and within one subject in a `BTreeMap` keyed by predicate.  The induced
order in which the batch's records appear in the output is modelled
here; the record values themselves are serialised per
`object_to_jsonld_value`. -/

/-- Strict lexicographic code-point order on character lists; on UTF-8
encoded strings this coincides with the byte order `BTreeMap<String, _>`
sorts by. -/
def charListLt : List Char → List Char → Bool
  | _, [] => false
  | [], _ :: _ => true
  | a :: as, b :: bs =>
      if a.toNat < b.toNat then true
      else if b.toNat < a.toNat then false
      else charListLt as bs

/-- Non-strict string order induced by `charListLt`. -/
def strLe (a b : String) : Bool :=
  ¬ charListLt b.data a.data

/-- The key sequence of a `BTreeMap` populated from `l`: distinct keys in
ascending order. -/
def btreeKeys (l : List String) : List String :=
  List.insertionSort (fun a b => strLe a b = true) l.dedup

/-- The order in which the records of a batch appear in `write_jsonld`
output: grouped by subject (ascending), then by predicate (ascending),
then in insertion order. -/
def write_jsonld_order (ts : List OwnedTriple) : List OwnedTriple :=
  (btreeKeys (ts.map (fun t => t.subject))).flatMap (fun s =>
    let es := ts.filter (fun t => t.subject = s)
    (btreeKeys (es.map (fun t => t.predicate))).flatMap (fun p =>
      es.filter (fun t => t.predicate = p)))

/-! ## The JSON-LD ingest walk (`src/splitter.rs` lines 410-528)

`serde_json::Value` is modelled by `Json`; numbers are kept as their
`Display` rendering, which is all the walk uses.  `serde_json`'s default
map is a `BTreeMap`; a `Json.obj` field list is therefore assumed to be
in ascending key order with distinct keys, and field iteration is list
order. -/

/-- The parsed JSON tree (`serde_json::Value`). -/
inductive Json where
  | null
  | bool (b : Bool)
  | num (lit : String)
  | str (s : String)
  | arr (elems : List Json)
  | obj (fields : List (String × Json))

mutual

/-- Fuel bound used to run `extract_node` to completion: an upper bound
on the nesting depth of the tree (one unit per node). -/
def jsonFuel : Json → Nat
  | .null => 1
  | .bool _ => 1
  | .num _ => 1
  | .str _ => 1
  | .arr elems => 1 + jsonFuelList elems
  | .obj fields => 1 + jsonFuelFields fields

def jsonFuelList : List Json → Nat
  | [] => 0
  | x :: xs => jsonFuel x + jsonFuelList xs

def jsonFuelFields : List (String × Json) → Nat
  | [] => 0
  | kv :: rest => jsonFuel kv.2 + jsonFuelFields rest

end

/-- `Map::get`. -/
def lookupField (fields : List (String × Json)) (k : String) : Option Json :=
  match fields with
  | [] => none
  | (k', v) :: rest => if k' = k then some v else lookupField rest k

/-- `Value::as_str`. -/
def asStr : Json → Option String
  | .str s => some s
  | _ => none

/-- `expand_iri` (`src/splitter.rs` line 431). -/
def expand_iri (s : String) : String :=
  if "http://".data.isPrefixOf s.data ∨ "https://".data.isPrefixOf s.data ∨
      "urn:".data.isPrefixOf s.data then
    "<" ++ s ++ ">"
  else if "_:".data.isPrefixOf s.data then
    s
  else
    "<" ++ s ++ ">"

/-- `jsonld_value_to_nt_object` (`src/splitter.rs` line 491). -/
def jsonld_value_to_nt_object (key : String) (val : Json) : Option String :=
  match val with
  | .obj m =>
      match (lookupField m "@id").bind asStr with
      | some iri => some (expand_iri iri)
      | none =>
          match (lookupField m "@value").bind asStr with
          | none => none
          | some value =>
              match (lookupField m "@language").bind asStr with
              | some lang =>
                  some ("\"" ++ nt_escape value ++ "\"@" ++ lang)
              | none =>
                  match (lookupField m "@type").bind asStr with
                  | some dt =>
                      some ("\"" ++ nt_escape value ++ "\"^^" ++ expand_iri dt)
                  | none => some ("\"" ++ nt_escape value ++ "\"")
  | .str s =>
      if key = "@type" then some (expand_iri s)
      else some ("\"" ++ nt_escape s ++ "\"")
  | .bool b =>
      some ("\"" ++ (if b then "true" else "false")
        ++ "\"^^<http://www.w3.org/2001/XMLSchema#boolean>")
  | .num n =>
      some ("\"" ++ n ++ "\"^^<http://www.w3.org/2001/XMLSchema#decimal>")
  | _ => none

/-- The statement line `extract_node` pushes for one produced object. -/
def nt_statement (subject predicate o : String) (graph : Option String) :
    String :=
  match graph with
  | some g => subject ++ " " ++ predicate ++ " " ++ o ++ " " ++ g ++ " .\n"
  | none => subject ++ " " ++ predicate ++ " " ++ o ++ " .\n"

/-- `extract_node` (`src/splitter.rs` line 441), producing the text it
appends to `out`.  The recursion through the `"@graph"` array is not
structural, so a fuel parameter bounds the depth; `0` fuel yields no
output, and any fuel at least the tree depth is exact. -/
def extract_node : Nat → Json → Option String → String
  | 0, _, _ => ""
  | fuel + 1, node, graph =>
      match node with
      | .obj fields =>
          (match lookupField fields "@graph" with
           | some (.arr graph_nodes) =>
               let g := ((lookupField fields "@id").bind asStr).map expand_iri
               graph_nodes.foldl (fun acc n => acc ++ extract_node fuel n g) ""
           | _ =>
               match (lookupField fields "@id").bind asStr with
               | none => ""
               | some id =>
                   let subject := expand_iri id
                   fields.foldl (fun acc kv =>
                     if kv.1 = "@id" ∨ kv.1 = "@context" then acc
                     else
                       let predicate :=
                         if kv.1 = "@type" then
                           "<http://www.w3.org/1999/02/22-rdf-syntax-ns#type>"
                         else expand_iri kv.1
                       let vals : List Json :=
                         match kv.2 with
                         | .arr a => a
                         | other => [other]
                       acc ++ vals.foldl (fun acc2 val =>
                         match jsonld_value_to_nt_object kv.1 val with
                         | some o => acc2 ++ nt_statement subject predicate o graph
                         | none => acc2) "") "")
      | _ => ""

/-- `jsonld_to_ntriples` (`src/splitter.rs` line 411), applied to the
already-parsed tree (the `serde_json::from_str` parse is external).
`jsonFuel v` exceeds the tree depth, so the fuel never runs out. -/
def jsonld_to_ntriples (v : Json) : String :=
  match v with
  | .arr nodes => nodes.foldl (fun acc n => acc ++ extract_node (jsonFuel v) n none) ""
  | .obj _ => extract_node (jsonFuel v) v none
  | _ => ""

/-- Split a character list at every occurrence of `c` (the separator is
dropped); the model of `str::lines` for text free of bare carriage
returns. -/
def splitOnChar (c : Char) : List Char → List (List Char)
  | [] => [[]]
  | x :: xs =>
      match splitOnChar c xs with
      | [] => [[]]
      | r :: rs => if x = c then [] :: r :: rs else (x :: r) :: rs

/-- `str::trim(..).is_empty()`: the line holds only whitespace (the text
counted here is ASCII, where Rust and Lean whitespace agree). -/
def isBlankLine (ln : String) : Bool :=
  ln.data.all (fun c => c.isWhitespace)

/-- The non-empty lines of a string (`str::lines` followed by the
`!l.trim().is_empty()` filter of `count_records`). -/
def nonEmptyLines (s : String) : List String :=
  ((splitOnChar '\n' s.data).map (fun cs => (⟨cs⟩ : String))).filter
    (fun ln => ¬ isBlankLine ln)

/-- The JSON-LD branch of `count_records` (`src/splitter.rs` lines
98-102): the count of non-empty lines of the converted N-Triples text. -/
def count_records_jsonld (v : Json) : Nat :=
  (nonEmptyLines (jsonld_to_ntriples v)).length

/-- Modelled from the spec: the re-decode of the converted N-Triples text
inside `split_jsonld_file` runs the external rio `NTriplesParser`
(§4.1: decoders are external collaborators; §4.5 and the glossary: the
plain line syntax holds one period-terminated statement per line).  It is
modelled as an arbitrary per-line decoder applied to every non-empty
line, failing as a whole when any line fails. -/
def decode_nt_lines {T : Type} (dl : String → Option T) (s : String) :
    Option (List T) :=
  (nonEmptyLines s).mapM dl

/-! ## Helper lemmas on the chunking loop -/

theorem chunkSpec_flatten {α : Type} (cs : Nat) (l : List α) :
    ∀ b : List α,
      (chunkSpec cs b l).1.flatten ++ (chunkSpec cs b l).2 = b ++ l := by
  induction l with
  | nil => intro b; simp [chunkSpec]
  | cons r rs ih =>
      intro b
      by_cases h : cs ≤ (b ++ [r]).length
      · simp only [chunkSpec, if_pos h, List.flatten_cons, List.append_assoc]
        rw [ih []]
        simp
      · simp only [chunkSpec, if_neg h]
        rw [ih (b ++ [r])]
        simp

theorem chunkSpec_sizes {α : Type} (cs : Nat) (l : List α) :
    ∀ b : List α, b.length < cs →
      ∀ ck ∈ (chunkSpec cs b l).1, ck.length = cs := by
  induction l with
  | nil => intro b _ ck hck; simp [chunkSpec] at hck
  | cons r rs ih =>
      intro b hb ck hck
      by_cases h : cs ≤ (b ++ [r]).length
      · simp only [chunkSpec, if_pos h, List.mem_cons] at hck
        rcases hck with hck | hck
        · subst hck
          simp only [List.length_append, List.length_cons, List.length_nil] at h ⊢
          omega
        · have hcs : 0 < cs := by
            simp only [List.length_append, List.length_cons, List.length_nil] at h
            omega
          exact ih [] (by simpa using hcs) ck hck
      · have hb' : (b ++ [r]).length < cs := by omega
        simp only [chunkSpec, if_neg h] at hck
        exact ih (b ++ [r]) hb' ck hck

theorem chunkSpec_rem_lt {α : Type} (cs : Nat) (l : List α) :
    ∀ b : List α, b.length < cs → (chunkSpec cs b l).2.length < cs := by
  induction l with
  | nil => intro b hb; simpa [chunkSpec] using hb
  | cons r rs ih =>
      intro b hb
      by_cases h : cs ≤ (b ++ [r]).length
      · have hcs : 0 < cs := by
          simp only [List.length_append, List.length_cons, List.length_nil] at h
          omega
        simp only [chunkSpec, if_pos h]
        exact ih [] (by simpa using hcs)
      · have hb' : (b ++ [r]).length < cs := by omega
        simp only [chunkSpec, if_neg h]
        exact ih (b ++ [r]) hb'

/-- Running the parse loop from an intermediate error-free state under the
always-successful write oracle is described exactly by `chunkSpec`. -/
theorem foldl_onRecord_allOk {α : Type} (cs : Nat) (l : List α) :
    ∀ (b : List α) (c t a : Nat) (wr : List (Nat × List α)),
      l.foldl (onRecord cs allOk) ⟨b, c, t, none, wr, a⟩ =
        ⟨(chunkSpec cs b l).2, c + (chunkSpec cs b l).1.length,
          t + ((chunkSpec cs b l).1.map List.length).sum, none,
          wr ++ (List.range' c (chunkSpec cs b l).1.length).zip (chunkSpec cs b l).1,
          a + (chunkSpec cs b l).1.length⟩ := by
  induction l with
  | nil => intro b c t a wr; simp [chunkSpec]
  | cons r rs ih =>
      intro b c t a wr
      by_cases h : cs ≤ (b ++ [r]).length
      · have h1 : cs ≤ b.length + 1 := by simpa using h
        have hstep : onRecord cs allOk ⟨b, c, t, none, wr, a⟩ r =
            ⟨[], c + 1, t + (b ++ [r]).length, none, wr ++ [(c, b ++ [r])], a + 1⟩ := by
          simp [onRecord, flushStep, allOk, h1]
        have hck : chunkSpec cs b (r :: rs) =
            ((b ++ [r]) :: (chunkSpec cs [] rs).1, (chunkSpec cs [] rs).2) := by
          simp only [chunkSpec]
          rw [if_pos h]
        rw [List.foldl_cons, hstep, ih [], hck]
        simp only [SplitState.mk.injEq, List.length_cons,
          List.map_cons, List.sum_cons, List.range'_succ, List.zip_cons_cons,
          List.length_append, List.length_nil, List.cons_append, List.nil_append,
          List.singleton_append, List.append_assoc]
        and_intros <;> first | trivial | omega
      · have h1 : ¬ cs ≤ b.length + 1 := by simpa using h
        have hstep : onRecord cs allOk ⟨b, c, t, none, wr, a⟩ r =
            ⟨b ++ [r], c, t, none, wr, a⟩ := by
          simp [onRecord, flushStep, h1]
        have hck : chunkSpec cs b (r :: rs) = chunkSpec cs (b ++ [r]) rs := by
          simp only [chunkSpec]
          rw [if_neg h]
        rw [List.foldl_cons, hstep, ih (b ++ [r]), hck]

/-- A successful split of the decoded stream `l` returns the stream length
as the record total and the chunk files described by `splitFiles`. -/
theorem split_stream_allOk {α : Type} (cs : Nat) (l : List α) :
    split_stream cs allOk l = .ok (l.length, splitFiles cs l) := by
  have hfold := foldl_onRecord_allOk cs l [] 0 0 0 []
  have hflat := chunkSpec_flatten cs l []
  simp only [List.nil_append] at hflat
  have hlen : ((chunkSpec cs ([] : List α) l).1.map List.length).sum +
      (chunkSpec cs ([] : List α) l).2.length = l.length := by
    have := congrArg List.length hflat
    simpa [List.length_flatten] using this
  simp only [split_stream, runParse, initState, hfold]
  by_cases hrem : (chunkSpec cs ([] : List α) l).2 = []
  · rw [hrem] at hlen ⊢
    simp only [List.length_nil, Nat.add_zero] at hlen
    simp [splitFiles, hrem, hlen, List.range_eq_range']
  · have hne : (chunkSpec cs ([] : List α) l).2.isEmpty = false := by
      simpa [List.isEmpty_iff] using hrem
    simp only [hne, Bool.false_eq_true, if_false, allOk, splitFiles,
      List.range_eq_range', Nat.zero_add, List.nil_append, Except.ok.injEq,
      Prod.mk.injEq]
    exact ⟨by omega, trivial⟩

/-! ## Shape of the chunk files of a successful split -/

theorem splitFiles_map_snd {α : Type} (cs : Nat) (l : List α) :
    (splitFiles cs l).map Prod.snd =
      (chunkSpec cs ([] : List α) l).1 ++
        (if (chunkSpec cs ([] : List α) l).2.isEmpty then []
         else [(chunkSpec cs ([] : List α) l).2]) := by
  simp only [splitFiles, List.map_append]
  have hz : ((List.range (chunkSpec cs ([] : List α) l).1.length).zip
      (chunkSpec cs ([] : List α) l).1).map Prod.snd =
      (chunkSpec cs ([] : List α) l).1 := by
    apply List.map_snd_zip
    simp
  rw [hz]
  by_cases hrem : (chunkSpec cs ([] : List α) l).2 = [] <;> simp [hrem]

theorem splitFiles_flatten {α : Type} (cs : Nat) (l : List α) :
    ((splitFiles cs l).map Prod.snd).flatten = l := by
  rw [splitFiles_map_snd]
  have hflat := chunkSpec_flatten cs l []
  simp only [List.nil_append] at hflat
  by_cases hrem : (chunkSpec cs ([] : List α) l).2 = []
  · simp only [hrem, List.isEmpty_nil, if_true, List.append_nil]
    simpa [hrem] using hflat
  · have hne : (chunkSpec cs ([] : List α) l).2.isEmpty = false := by
      simpa [List.isEmpty_iff] using hrem
    simp only [hne, Bool.false_eq_true, if_false, List.flatten_append,
      List.flatten_cons, List.flatten_nil, List.append_nil]
    exact hflat

theorem splitFiles_map_fst {α : Type} (cs : Nat) (l : List α) :
    (splitFiles cs l).map Prod.fst = List.range (splitFiles cs l).length := by
  simp only [splitFiles]
  have hlenz : ((List.range (chunkSpec cs ([] : List α) l).1.length).zip
      (chunkSpec cs ([] : List α) l).1).length =
      (chunkSpec cs ([] : List α) l).1.length := by
    simp [List.length_zip]
  have hz : ((List.range (chunkSpec cs ([] : List α) l).1.length).zip
      (chunkSpec cs ([] : List α) l).1).map Prod.fst =
      List.range (chunkSpec cs ([] : List α) l).1.length := by
    apply List.map_fst_zip
    simp
  by_cases hrem : (chunkSpec cs ([] : List α) l).2 = []
  · simp [hrem, hz, hlenz]
  · have hne : (chunkSpec cs ([] : List α) l).2.isEmpty = false := by
      simpa [List.isEmpty_iff] using hrem
    simp only [hne, Bool.false_eq_true, if_false, List.map_append, hz,
      List.map_cons, List.map_nil, List.length_append, hlenz, List.length_cons,
      List.length_nil]
    rw [List.range_succ]

theorem ceil_div_exact (cs k : Nat) (hcs : 1 ≤ cs) :
    (cs * k + cs - 1) / cs = k := by
  have h1 : cs * k + cs - 1 = cs * k + (cs - 1) := by omega
  rw [h1, Nat.mul_add_div (by omega), Nat.div_eq_of_lt (by omega)]
  omega

theorem ceil_div_rem (cs k r : Nat) (hcs : 1 ≤ cs) (hr1 : 1 ≤ r)
    (hr2 : r < cs) :
    (cs * k + r + cs - 1) / cs = k + 1 := by
  have hm : cs * (k + 1) = cs * k + cs := by ring
  have h1 : cs * k + r + cs - 1 = cs * (k + 1) + (r - 1) := by omega
  rw [h1, Nat.mul_add_div (by omega), Nat.div_eq_of_lt (by omega)]

theorem mul_pred_add (cs k : Nat) (hk : 1 ≤ k) :
    cs * (k - 1) + cs = cs * k := by
  cases k with
  | zero => omega
  | succ n => simp [Nat.mul_succ]

theorem splitFiles_sum_lengths {α : Type} (cs : Nat) (l : List α)
    (hcs : 1 ≤ cs) :
    cs * (chunkSpec cs ([] : List α) l).1.length +
      (chunkSpec cs ([] : List α) l).2.length = l.length := by
  have hflat := chunkSpec_flatten cs l []
  simp only [List.nil_append] at hflat
  have h := congrArg List.length hflat
  simp only [List.length_append, List.length_flatten] at h
  have hrep : (chunkSpec cs ([] : List α) l).1.map List.length =
      List.replicate ((chunkSpec cs ([] : List α) l).1.map List.length).length cs := by
    apply List.eq_replicate_of_mem
    intro b hb
    obtain ⟨ck, hck, rfl⟩ := List.mem_map.mp hb
    exact chunkSpec_sizes cs l [] (by simp only [List.length_nil]; omega) ck hck
  rw [hrep, List.sum_replicate, smul_eq_mul, List.length_map] at h
  rw [Nat.mul_comm]
  exact h

theorem splitFiles_length {α : Type} (cs : Nat) (l : List α)
    (hcs : 1 ≤ cs) :
    (splitFiles cs l).length = (l.length + cs - 1) / cs := by
  have hsum := splitFiles_sum_lengths cs l hcs
  have hrem := chunkSpec_rem_lt cs l [] (by simp only [List.length_nil]; omega)
  simp only [List.length_nil] at hrem
  simp only [splitFiles, List.length_append, List.length_zip, List.length_range,
    Nat.min_self]
  by_cases h2 : (chunkSpec cs ([] : List α) l).2 = []
  · rw [h2] at hsum
    simp only [List.length_nil, Nat.add_zero] at hsum
    simp only [h2, List.isEmpty_nil, if_true, List.length_nil, Nat.add_zero]
    rw [← hsum, ceil_div_exact cs _ hcs]
  · have hne : (chunkSpec cs ([] : List α) l).2.isEmpty = false := by
      simpa [List.isEmpty_iff] using h2
    have hrpos : 0 < (chunkSpec cs ([] : List α) l).2.length := by
      cases hI : (chunkSpec cs ([] : List α) l).2 with
      | nil => exact absurd hI h2
      | cons x xs => simp [hI]
    simp only [hne, Bool.false_eq_true, if_false, List.length_cons, List.length_nil]
    rw [← hsum, ceil_div_rem cs _ _ hcs (by omega) hrem]

theorem splitFiles_dropLast_sizes {α : Type} (cs : Nat) (l : List α)
    (hcs : 1 ≤ cs) :
    ∀ f ∈ (splitFiles cs l).dropLast, f.2.length = cs := by
  intro f hf
  have hsizes := chunkSpec_sizes cs l [] (by simp only [List.length_nil]; omega)
  simp only [splitFiles] at hf
  by_cases h2 : (chunkSpec cs ([] : List α) l).2 = []
  · simp only [h2, List.isEmpty_nil, if_true, List.append_nil] at hf
    have hf' := List.dropLast_sublist _ |>.mem hf
    exact hsizes f.2 (List.of_mem_zip (by simpa using hf')).2
  · have hne : (chunkSpec cs ([] : List α) l).2.isEmpty = false := by
      simpa [List.isEmpty_iff] using h2
    simp only [hne, Bool.false_eq_true, if_false, List.dropLast_concat] at hf
    exact hsizes f.2 (List.of_mem_zip (by simpa using hf)).2

theorem splitFiles_getLast {α : Type} (cs : Nat) (l : List α)
    (hcs : 1 ≤ cs) (hl : 0 < l.length) :
    ∀ lf, (splitFiles cs l).getLast? = some lf →
      0 < lf.2.length ∧ lf.2.length ≤ cs ∧
      lf.2.length = l.length - cs * ((splitFiles cs l).length - 1) := by
  intro lf hlf
  have hsum := splitFiles_sum_lengths cs l hcs
  have hrem := chunkSpec_rem_lt cs l [] (by simp only [List.length_nil]; omega)
  simp only [List.length_nil] at hrem
  have hsizes := chunkSpec_sizes cs l [] (by simp only [List.length_nil]; omega)
  have hlenz : ((List.range (chunkSpec cs ([] : List α) l).1.length).zip
      (chunkSpec cs ([] : List α) l).1).length =
      (chunkSpec cs ([] : List α) l).1.length := by
    simp [List.length_zip]
  by_cases h2 : (chunkSpec cs ([] : List α) l).2 = []
  · rw [h2] at hsum
    simp only [List.length_nil, Nat.add_zero] at hsum
    have hk : 0 < (chunkSpec cs ([] : List α) l).1.length := by
      by_contra hk
      have h0 : (chunkSpec cs ([] : List α) l).1.length = 0 := by omega
      rw [h0, Nat.mul_zero] at hsum
      omega
    simp only [splitFiles, h2, List.isEmpty_nil, if_true, List.append_nil] at hlf ⊢
    have hmem : lf ∈ (List.range (chunkSpec cs ([] : List α) l).1.length).zip
        (chunkSpec cs ([] : List α) l).1 := List.mem_of_mem_getLast? hlf
    have hlen : lf.2.length = cs := hsizes lf.2 (List.of_mem_zip (by simpa using hmem)).2
    have hmul := mul_pred_add cs (chunkSpec cs ([] : List α) l).1.length hk
    rw [hlenz]
    refine ⟨by omega, by omega, by omega⟩
  · have hne : (chunkSpec cs ([] : List α) l).2.isEmpty = false := by
      simpa [List.isEmpty_iff] using h2
    have hrpos : 0 < (chunkSpec cs ([] : List α) l).2.length := by
      cases hI : (chunkSpec cs ([] : List α) l).2 with
      | nil => exact absurd hI h2
      | cons x xs => simp [hI]
    simp only [splitFiles, hne, Bool.false_eq_true, if_false] at hlf ⊢
    rw [List.getLast?_concat] at hlf
    obtain rfl : lf = ((chunkSpec cs ([] : List α) l).1.length,
        (chunkSpec cs ([] : List α) l).2) := (Option.some_injective _ hlf).symm
    simp only [List.length_append, hlenz, List.length_cons, List.length_nil,
      Nat.zero_add, Nat.add_sub_cancel]
    refine ⟨hrpos, by omega, by omega⟩

theorem splitFiles_no_empty_chunk {α : Type} (cs : Nat) (l : List α)
    (hcs : 1 ≤ cs) :
    ∀ f ∈ splitFiles cs l, f.2 ≠ [] := by
  intro f hf
  have hsizes := chunkSpec_sizes cs l [] (by simp only [List.length_nil]; omega)
  simp only [splitFiles] at hf
  by_cases h2 : (chunkSpec cs ([] : List α) l).2 = []
  · simp only [h2, List.isEmpty_nil, if_true, List.append_nil] at hf
    have hlen : f.2.length = cs := hsizes f.2 (List.of_mem_zip (by simpa using hf)).2
    intro hnil
    rw [hnil] at hlen
    simp only [List.length_nil] at hlen
    omega
  · have hne : (chunkSpec cs ([] : List α) l).2.isEmpty = false := by
      simpa [List.isEmpty_iff] using h2
    simp only [hne, Bool.false_eq_true, if_false, List.mem_append,
      List.mem_cons, List.not_mem_nil, or_false] at hf
    rcases hf with hf | hf
    · have hlen : f.2.length = cs := hsizes f.2 (List.of_mem_zip (by simpa using hf)).2
      intro hnil
      rw [hnil] at hlen
      simp only [List.length_nil] at hlen
      omega
    · subst hf
      simpa using h2

theorem count_stream_length {α : Type} (l : List α) :
    count_stream l = l.length := by
  suffices h : ∀ n : Nat, l.foldl (fun n _ => n + 1) n = n + l.length by
    simpa [count_stream] using h 0
  induction l with
  | nil => intro n; simp
  | cons x xs ih => intro n; simp [ih]; omega

/-! ## Invariants under arbitrary write outcomes -/

/-- Record conservation: no record is ever dropped by the loop, whatever
the write outcomes — the chunk files written so far plus the live buffer
always hold exactly the processed prefix of the stream. -/
theorem foldl_conserve {α : Type} (cs : Nat) (w : WriteOutcome) (l : List α) :
    ∀ st : SplitState α,
      ((l.foldl (onRecord cs w) st).written.map Prod.snd).flatten ++
          (l.foldl (onRecord cs w) st).buf =
        (st.written.map Prod.snd).flatten ++ st.buf ++ l := by
  induction l with
  | nil => intro st; simp
  | cons r rs ih =>
      intro st
      rw [List.foldl_cons, ih (onRecord cs w st r)]
      have hstep : ((onRecord cs w st r).written.map Prod.snd).flatten ++
          (onRecord cs w st r).buf =
          (st.written.map Prod.snd).flatten ++ st.buf ++ [r] := by
        unfold onRecord flushStep
        by_cases hc : cs ≤ (st.buf ++ [r]).length
        · simp only [if_pos hc]
          have hne : (st.buf ++ [r]).isEmpty = false := by simp
          simp only [hne, Bool.false_eq_true, if_false]
          cases w st.attempts with
          | none => simp
          | some e => simp
        · simp only [if_neg hc]
          simp [List.append_assoc]
      rw [hstep]
      simp [List.append_assoc]

/-- Chunk-index discipline: whatever the write outcomes, the indices of
the chunk files written so far are `0, 1, 2, …` in order, and the next
index is the running `chunk` counter. -/
theorem foldl_indices {α : Type} (cs : Nat) (w : WriteOutcome) (l : List α) :
    ∀ st : SplitState α, st.written.map Prod.fst = List.range st.chunk →
      (l.foldl (onRecord cs w) st).written.map Prod.fst =
        List.range (l.foldl (onRecord cs w) st).chunk := by
  induction l with
  | nil => intro st h; simpa using h
  | cons r rs ih =>
      intro st h
      rw [List.foldl_cons]
      apply ih
      unfold onRecord flushStep
      by_cases hc : cs ≤ (st.buf ++ [r]).length
      · simp only [if_pos hc]
        have hne : (st.buf ++ [r]).isEmpty = false := by simp
        simp only [hne, Bool.false_eq_true, if_false]
        cases w st.attempts with
        | none => simp [h, List.range_succ]
        | some e => simpa using h
      · simp only [if_neg hc]
        simpa using h

/-- The chunk files of any successful split carry the indices
`0, …, files.length - 1` in order. -/
theorem split_stream_indices {α : Type} (cs : Nat) (w : WriteOutcome)
    (l : List α) (total : Nat) (files : List (Nat × List α))
    (h : split_stream cs w l = .ok (total, files)) :
    files.map Prod.fst = List.range files.length := by
  have hidx : (runParse cs w l).written.map Prod.fst =
      List.range (runParse cs w l).chunk := by
    simpa [runParse] using foldl_indices cs w l initState (by simp [initState])
  have hcount : (runParse cs w l).written.length = (runParse cs w l).chunk := by
    have := congrArg List.length hidx
    simpa using this
  simp only [split_stream] at h
  cases hE : (runParse cs w l).flushErr with
  | some e => rw [hE] at h; exact absurd h (by simp)
  | none =>
      rw [hE] at h
      by_cases hb : (runParse cs w l).buf.isEmpty
      · rw [if_pos hb] at h
        obtain ⟨h1, h2⟩ := Prod.mk.injEq _ _ _ _ |>.mp (Except.ok.inj h)
        subst h2
        rw [← hcount] at hidx
        exact hidx
      · rw [if_neg hb] at h
        cases hw : w (runParse cs w l).attempts with
        | some e => rw [hw] at h; exact absurd h (by simp)
        | none =>
            rw [hw] at h
            obtain ⟨h1, h2⟩ := Prod.mk.injEq _ _ _ _ |>.mp (Except.ok.inj h)
            subst h2
            simp only [List.map_append, List.length_append, List.map_cons,
              List.map_nil, List.length_cons, List.length_nil]
            rw [hidx, ← List.range_succ, hcount]

/-! ## Claim C1 -/

/-- C1: for every successfully split input with a fixed chunk size `s ≥ 1`
and total decoded record count `total > 0`, the split produces exactly
`⌈total / s⌉` output chunks; every chunk except the last contains exactly
`s` records, and the last contains `total - s * (chunks - 1)` records,
which is positive and at most `s`; no empty trailing chunk is emitted. -/
theorem C1_fixed_chunk_counts {α : Type} (cs : Nat) (l : List α)
    (total : Nat) (files : List (Nat × List α))
    (hcs : 1 ≤ cs) (hl : 0 < l.length)
    (h : split_stream cs allOk l = .ok (total, files)) :
    total = l.length ∧
    files.length = (l.length + cs - 1) / cs ∧
    files ≠ [] ∧
    (∀ f ∈ files.dropLast, f.2.length = cs) ∧
    (∀ lf, files.getLast? = some lf →
      lf.2.length = l.length - cs * (files.length - 1) ∧
      0 < lf.2.length ∧ lf.2.length ≤ cs) ∧
    (∀ f ∈ files, f.2 ≠ []) := by
  rw [split_stream_allOk] at h
  have h' : (l.length, splitFiles cs l) = (total, files) := by
    exact Except.ok.inj h
  obtain ⟨h1, h2⟩ := Prod.mk.injEq _ _ _ _ |>.mp h'
  subst h1
  subst h2
  have hflen := splitFiles_length cs l hcs
  have hpos : 0 < (splitFiles cs l).length := by
    rw [hflen]
    rw [Nat.lt_iff_add_one_le, Nat.zero_add, Nat.le_div_iff_mul_le (by omega)]
    omega
  refine ⟨rfl, hflen, List.ne_nil_of_length_pos hpos,
    splitFiles_dropLast_sizes cs l hcs, ?_, splitFiles_no_empty_chunk cs l hcs⟩
  intro lf hlf
  obtain ⟨hp, hle, heq⟩ := splitFiles_getLast cs l hcs hl lf hlf
  exact ⟨heq, hp, hle⟩

/-- Witness for C1: a concrete 4-record stream with chunk size 3 yields two
chunk files of 3 and 1 records. -/
theorem C1_fixed_chunk_counts_witness :
    (1 ≤ 3 ∧ 0 < ([0, 1, 2, 3] : List Nat).length ∧
      split_stream 3 allOk ([0, 1, 2, 3] : List Nat) =
        .ok (4, [(0, [0, 1, 2]), (1, [3])])) ∧
    (4 = ([0, 1, 2, 3] : List Nat).length ∧
      ([(0, [0, 1, 2]), (1, [3])] : List (Nat × List Nat)).length =
        (([0, 1, 2, 3] : List Nat).length + 3 - 1) / 3 ∧
      ([(0, [0, 1, 2]), (1, [3])] : List (Nat × List Nat)) ≠ [] ∧
      (∀ f ∈ ([(0, [0, 1, 2]), (1, [3])] : List (Nat × List Nat)).dropLast,
        f.2.length = 3) ∧
      (∀ lf, ([(0, [0, 1, 2]), (1, [3])] : List (Nat × List Nat)).getLast? = some lf →
        lf.2.length = ([0, 1, 2, 3] : List Nat).length -
          3 * (([(0, [0, 1, 2]), (1, [3])] : List (Nat × List Nat)).length - 1) ∧
        0 < lf.2.length ∧ lf.2.length ≤ 3) ∧
      (∀ f ∈ ([(0, [0, 1, 2]), (1, [3])] : List (Nat × List Nat)), f.2 ≠ [])) :=
  ⟨⟨by decide, by decide, rfl⟩,
    C1_fixed_chunk_counts 3 [0, 1, 2, 3] 4 [(0, [0, 1, 2]), (1, [3])]
      (by decide) (by decide) rfl⟩

/-! ## Claim C2 -/

/-- C2 counterexample: 5 records with a requested file count of 4 (so
`total ≥ f`) derive chunk size `⌈5/4⌉ = 2` and produce 3 chunk files,
not exactly 4. -/
theorem C2_file_count_counterexample :
    4 ≤ ([0, 1, 2, 3, 4] : List Nat).length ∧
    derive_chunk_size (count_stream ([0, 1, 2, 3, 4] : List Nat)) 4 = 2 ∧
    split_stream (derive_chunk_size (count_stream ([0, 1, 2, 3, 4] : List Nat)) 4)
        allOk ([0, 1, 2, 3, 4] : List Nat) =
      .ok (5, [(0, [0, 1]), (1, [2, 3]), (2, [4])]) ∧
    ([(0, [0, 1]), (1, [2, 3]), (2, [4])] : List (Nat × List Nat)).length ≠ 4 :=
  ⟨by decide, by decide, rfl, by decide⟩

/-- C2 amended: with `f ≥ 1` and `total ≥ f`, the chunk size is derived as
`max ⌈total/f⌉ 1 = ⌈total/f⌉` and the resulting number of output chunks is
at least 1 and at most `f` (equality with `f` can fail, as the
counterexample shows). -/
theorem C2_file_count_amended {α : Type} (fc : Nat) (l : List α)
    (total : Nat) (files : List (Nat × List α))
    (hfc : 1 ≤ fc) (hl : fc ≤ l.length)
    (h : split_stream (derive_chunk_size (count_stream l) fc) allOk l =
      .ok (total, files)) :
    derive_chunk_size (count_stream l) fc = (l.length + fc - 1) / fc ∧
    1 ≤ files.length ∧ files.length ≤ fc := by
  have hn : 0 < l.length := by omega
  have hq1 : 1 ≤ (l.length + fc - 1) / fc := by
    rw [Nat.le_div_iff_mul_le (by omega)]
    omega
  have hderive : derive_chunk_size (count_stream l) fc =
      (l.length + fc - 1) / fc := by
    rw [derive_chunk_size, count_stream_length]
    omega
  rw [hderive] at h
  rw [split_stream_allOk] at h
  obtain ⟨h1, h2⟩ := Prod.mk.injEq _ _ _ _ |>.mp (Except.ok.inj h)
  subst h2
  have hflen := splitFiles_length ((l.length + fc - 1) / fc) l hq1
  refine ⟨hderive, ?_, ?_⟩
  · rw [hflen, Nat.le_div_iff_mul_le (by omega)]
    omega
  · rw [hflen]
    have hdm := Nat.div_add_mod (l.length + fc - 1) fc
    have hmod := Nat.mod_lt (l.length + fc - 1) (show 0 < fc by omega)
    have hqn : l.length ≤ fc * ((l.length + fc - 1) / fc) := by omega
    rw [Nat.div_le_iff_le_mul_add_pred (by omega)]
    have hcomm : fc * ((l.length + fc - 1) / fc) =
        ((l.length + fc - 1) / fc) * fc := Nat.mul_comm _ _
    omega

/-- C2 amended witness: 4 records, requested file count 2: chunk size 2,
exactly 2 files (between 1 and 2). -/
theorem C2_file_count_amended_witness :
    (1 ≤ 2 ∧ 2 ≤ ([0, 1, 2, 3] : List Nat).length ∧
      split_stream (derive_chunk_size (count_stream ([0, 1, 2, 3] : List Nat)) 2)
        allOk ([0, 1, 2, 3] : List Nat) =
        .ok (4, [(0, [0, 1]), (1, [2, 3])])) ∧
    (derive_chunk_size (count_stream ([0, 1, 2, 3] : List Nat)) 2 =
        (([0, 1, 2, 3] : List Nat).length + 2 - 1) / 2 ∧
      1 ≤ ([(0, [0, 1]), (1, [2, 3])] : List (Nat × List Nat)).length ∧
      ([(0, [0, 1]), (1, [2, 3])] : List (Nat × List Nat)).length ≤ 2) :=
  ⟨⟨by decide, by decide, rfl⟩,
    C2_file_count_amended 2 [0, 1, 2, 3] 4 [(0, [0, 1]), (1, [2, 3])]
      (by decide) (by decide) rfl⟩

/-! ## Claim C4 -/

/-- C4 counterexample: chunk size 1 over the 3-record stream `[0, 1, 2]`
with every write failing.  The first flush attempt (while flushing
record `0`) fails; the claim then asserts that decoding stops at the next
opportunity and the flush is not retried — but the loop decodes all three
records (the final buffer holds all of them) and attempts the flush three
times, once per record.  The buffered records are indeed kept and the
error is surfaced. -/
theorem C4_flush_failure_counterexample :
    (runParse 1 failingWrites ([0, 1, 2] : List Nat)).buf = [0, 1, 2] ∧
    (runParse 1 failingWrites ([0, 1, 2] : List Nat)).flushErr =
      some (.Io "disk full") ∧
    (runParse 1 failingWrites ([0, 1, 2] : List Nat)).written = [] ∧
    (runParse 1 failingWrites ([0, 1, 2] : List Nat)).attempts = 3 ∧
    ¬ (runParse 1 failingWrites ([0, 1, 2] : List Nat)).attempts ≤ 1 ∧
    split_stream 1 failingWrites ([0, 1, 2] : List Nat) =
      .error (.Io "disk full") :=
  ⟨rfl, rfl, rfl, rfl, by decide, rfl⟩

/-- C4 amended: when a chunk flush fails, the buffered records are not
cleared and the error is captured (the written files, chunk index and
buffer are untouched); the decode loop does NOT stop — every remaining
record is still decoded and appended (record conservation holds under any
write outcomes), and each later append that reaches the threshold
re-attempts the flush with the same chunk index; the captured error is
returned when decoding finishes, before any remainder flush. -/
theorem C4_flush_failure_amended {α : Type} (cs : Nat) (w : WriteOutcome) :
    (∀ (st : SplitState α) (e : SplitterError), st.buf ≠ [] →
      w st.attempts = some e →
      (flushStep w st).buf = st.buf ∧
      (flushStep w st).flushErr = some e ∧
      (flushStep w st).written = st.written ∧
      (flushStep w st).chunk = st.chunk ∧
      (flushStep w st).attempts = st.attempts + 1) ∧
    (∀ l : List α,
      ((runParse cs w l).written.map Prod.snd).flatten ++ (runParse cs w l).buf
        = l) ∧
    (∀ (l : List α) (e : SplitterError), (runParse cs w l).flushErr = some e →
      split_stream cs w l = .error e) := by
  refine ⟨?_, ?_, ?_⟩
  · intro st e hne hw
    have hb : st.buf.isEmpty = false := by simpa [List.isEmpty_iff] using hne
    simp [flushStep, hb, hw]
  · intro l
    have := foldl_conserve cs w l initState
    simpa [runParse, initState] using this
  · intro l e h
    simp [split_stream, h]

/-- Witness for the amended C4 at a failing flush on a concrete state and
stream. -/
theorem C4_flush_failure_amended_witness :
    ((flushStep failingWrites (⟨[5], 0, 0, none, [], 0⟩ : SplitState Nat)).buf = [5] ∧
      (flushStep failingWrites (⟨[5], 0, 0, none, [], 0⟩ : SplitState Nat)).flushErr =
        some (.Io "disk full") ∧
      (flushStep failingWrites (⟨[5], 0, 0, none, [], 0⟩ : SplitState Nat)).written = [] ∧
      (flushStep failingWrites (⟨[5], 0, 0, none, [], 0⟩ : SplitState Nat)).chunk = 0 ∧
      (flushStep failingWrites (⟨[5], 0, 0, none, [], 0⟩ : SplitState Nat)).attempts = 1) ∧
    (((runParse 2 failingWrites ([7, 8, 9] : List Nat)).written.map Prod.snd).flatten
        ++ (runParse 2 failingWrites ([7, 8, 9] : List Nat)).buf = [7, 8, 9]) ∧
    split_stream 2 failingWrites ([7, 8, 9] : List Nat) =
      .error (.Io "disk full") :=
  ⟨(C4_flush_failure_amended 2 failingWrites).1 ⟨[5], 0, 0, none, [], 0⟩
      (.Io "disk full") (by decide) rfl,
    (C4_flush_failure_amended 2 failingWrites).2.1 [7, 8, 9],
    (C4_flush_failure_amended 2 failingWrites).2.2 [7, 8, 9] (.Io "disk full") rfl⟩

/-! ## Claim C7 -/

/-- C7: every successful split names its chunk files
`{stem}_{index:04}.{extension}` in the output directory, with the indices
drawn from a counter running `0, 1, 2, …` over the produced files;
`pad4` pads the decimal index to a minimum width of 4 with zeros, and the
extension is the canonical one of the output format regardless of the
input extension variant — an `.nquads` input is the N-Quads format, whose
chunk files use `.nq`. -/
theorem C7_chunk_naming :
    (∀ (α : Type) (cs : Nat) (w : WriteOutcome) (l : List α) (total : Nat)
      (files : List (Nat × List α)),
      split_stream cs w l = .ok (total, files) →
      files.map Prod.fst = List.range files.length) ∧
    (∀ stem fmt chunk dir, chunk_path stem fmt chunk dir =
      dir ++ "/" ++ stem ++ "_" ++ pad4 chunk ++ "." ++ fmt.extension) ∧
    (∀ n, (pad4 n).length = max 4 (toString n).length) ∧
    RdfFormat.from_ext "nquads" = some .NQuads ∧
    RdfFormat.extension .NQuads = "nq" := by
  refine ⟨?_, fun _ _ _ _ => rfl, ?_, rfl, rfl⟩
  · intro α cs w l total files h
    exact split_stream_indices cs w l total files h
  · intro n
    show (List.replicate (4 - (toString n).length) '0' ++ (toString n).data).length
      = max 4 (toString n).length
    rw [List.length_append, List.length_replicate]
    have hdl : (toString n).length = (toString n).data.length := rfl
    omega

/-- Witness for C7 at a concrete split: two files, indices `[0, 1]`. -/
theorem C7_chunk_naming_witness :
    split_stream 2 allOk ([0, 1, 2] : List Nat) =
      .ok (3, [(0, [0, 1]), (1, [2])]) ∧
    ([(0, [0, 1]), (1, [2])] : List (Nat × List Nat)).map Prod.fst =
      List.range ([(0, [0, 1]), (1, [2])] : List (Nat × List Nat)).length :=
  ⟨rfl, C7_chunk_naming.1 Nat 2 allOk [0, 1, 2] 3 [(0, [0, 1]), (1, [2])] rfl⟩

/-! ## Claim C8 -/

/-- C8: `prepare_output_dir` is a no-op success when the directory exists;
a missing directory is an `OutputDirMissing` error without force-mode and
is created (parents included) with it; `check_overwrite` fails with
`OutputExists` exactly when the target path exists and force-mode is off,
and succeeds otherwise. -/
theorem C8_output_policy :
    (∀ (dir : String) (force : Bool),
      prepare_output_dir dir true force = .ok false) ∧
    (∀ dir : String,
      prepare_output_dir dir false false = .error (.OutputDirMissing dir)) ∧
    (∀ dir : String, prepare_output_dir dir false true = .ok true) ∧
    (∀ (path : String) (pathExists force : Bool),
      check_overwrite path pathExists force = .error (.OutputExists path) ↔
        pathExists = true ∧ force = false) ∧
    (∀ (path : String) (pathExists force : Bool),
      ¬ (pathExists = true ∧ force = false) →
        check_overwrite path pathExists force = .ok ()) := by
  refine ⟨fun _ _ => rfl, fun _ => rfl, fun _ => rfl, ?_, ?_⟩
  · intro path pe f
    cases pe <;> cases f <;> simp [check_overwrite]
  · intro path pe f h
    cases pe with
    | false => cases f <;> simp [check_overwrite]
    | true =>
        cases f with
        | false => exact absurd ⟨rfl, rfl⟩ h
        | true => simp [check_overwrite]

/-- Witness for C8 at concrete booleans. -/
theorem C8_output_policy_witness :
    prepare_output_dir "out" true false = .ok false ∧
    prepare_output_dir "out" false false = .error (.OutputDirMissing "out") ∧
    prepare_output_dir "out" false true = .ok true ∧
    (check_overwrite "p" true false = .error (.OutputExists "p") ↔
      true = true ∧ false = false) ∧
    check_overwrite "p" true true = .ok () :=
  ⟨C8_output_policy.1 "out" false, C8_output_policy.2.1 "out",
    C8_output_policy.2.2.1 "out", C8_output_policy.2.2.2.1 "p" true false,
    C8_output_policy.2.2.2.2 "p" true true (by decide)⟩

/-! ## Claim C10 -/

/-- C10: `chunk_size = 0` is accepted and behaves exactly like
`chunk_size = 1`: after every append the buffer length is at least 0 (and
at least 1), so the flush fires after every single record and every chunk
file holds exactly one record; the loop terminates and no empty chunk is
produced. -/
theorem C10_zero_chunk_size {α : Type} :
    (∀ (w : WriteOutcome) (l : List α),
      split_stream 0 w l = split_stream 1 w l) ∧
    (∀ (l : List α) (total : Nat) (files : List (Nat × List α)),
      split_stream 0 allOk l = .ok (total, files) →
      ∀ f ∈ files, f.2.length = 1) := by
  have honrec : ∀ w : WriteOutcome, onRecord (α := α) 0 w = onRecord 1 w := by
    intro w
    funext st r
    simp [onRecord]
  have hsame : ∀ (w : WriteOutcome) (l : List α),
      split_stream 0 w l = split_stream 1 w l := by
    intro w l
    unfold split_stream runParse
    rw [honrec w]
  refine ⟨hsame, ?_⟩
  intro l total files h
  rw [hsame allOk l, split_stream_allOk] at h
  obtain ⟨h1, h2⟩ := Prod.mk.injEq _ _ _ _ |>.mp (Except.ok.inj h)
  subst h2
  intro f hf
  have hrem := chunkSpec_rem_lt 1 l [] (by simp)
  have h2 : (chunkSpec 1 ([] : List α) l).2 = [] := by
    cases hI : (chunkSpec 1 ([] : List α) l).2 with
    | nil => rfl
    | cons x xs => rw [hI] at hrem; simp at hrem
  simp only [splitFiles, h2, List.isEmpty_nil, if_true, List.append_nil] at hf
  exact chunkSpec_sizes 1 l [] (by simp) f.2 (List.of_mem_zip (by simpa using hf)).2

/-- Witness for C10 at a concrete 2-record stream. -/
theorem C10_zero_chunk_size_witness :
    split_stream 0 allOk ([4, 5] : List Nat) = split_stream 1 allOk ([4, 5] : List Nat) ∧
    split_stream 0 allOk ([4, 5] : List Nat) = .ok (2, [(0, [4]), (1, [5])]) ∧
    (∀ f ∈ ([(0, [4]), (1, [5])] : List (Nat × List Nat)), f.2.length = 1) :=
  ⟨(C10_zero_chunk_size (α := Nat)).1 allOk [4, 5], rfl,
    (C10_zero_chunk_size (α := Nat)).2 [4, 5] 2 [(0, [4]), (1, [5])] rfl⟩

/-! ## Claim C9 -/

theorem mapM_option_length {A B : Type} (dl : A → Option B) :
    ∀ (l : List A) (ts : List B), l.mapM dl = some ts → ts.length = l.length := by
  intro l
  induction l with
  | nil =>
      intro ts h
      simp only [List.mapM_nil, pure, Option.some.injEq] at h
      subst h
      rfl
  | cons a rest ih =>
      intro ts h
      rw [List.mapM_cons] at h
      cases hda : dl a with
      | none => rw [hda] at h; simp at h
      | some b =>
          rw [hda] at h
          cases hrest : rest.mapM dl with
          | none => rw [hrest] at h; simp at h
          | some bs =>
              rw [hrest] at h
              simp only [Option.bind_some, Option.some.injEq, Option.bind_eq_bind,
                Option.some_bind, pure] at h
              subst h
              simp [ih bs hrest]

/-- C9: the counting pass and the splitting pass agree.  For the five
parser-backed formats both passes fold over the same decoded stream, so
`count_records` returns exactly the total a flush-error-free `split_file`
returns.  For the JSON-tree syntax, `count_records` counts the non-empty
lines of the intermediate flat triple text, while `split_jsonld_file`
re-decodes that text (modelled as a per-line decoder, the rio parser
being external) and returns the decoded record total: when the re-decode
succeeds it yields one record per non-empty line, so the counts agree. -/
theorem C9_count_matches_split :
    (∀ (α : Type) (l : List α) (cs total : Nat) (files : List (Nat × List α)),
      split_stream cs allOk l = .ok (total, files) → count_stream l = total) ∧
    (∀ (v : Json) (dl : String → Option OwnedTriple) (ts : List OwnedTriple),
      decode_nt_lines dl (jsonld_to_ntriples v) = some ts →
      ∀ (cs total : Nat) (files : List (Nat × List OwnedTriple)),
        split_stream cs allOk ts = .ok (total, files) →
        count_records_jsonld v = total) := by
  have htotal : ∀ (α : Type) (l : List α) (cs total : Nat)
      (files : List (Nat × List α)),
      split_stream cs allOk l = .ok (total, files) → count_stream l = total := by
    intro α l cs total files h
    rw [split_stream_allOk] at h
    obtain ⟨h1, h2⟩ := Prod.mk.injEq _ _ _ _ |>.mp (Except.ok.inj h)
    rw [count_stream_length]
    exact h1
  refine ⟨htotal, ?_⟩
  intro v dl ts hdec cs total files hsplit
  have hlen : ts.length = (nonEmptyLines (jsonld_to_ntriples v)).length :=
    mapM_option_length dl _ ts hdec
  have := htotal OwnedTriple ts cs total files hsplit
  rw [count_stream_length] at this
  rw [count_records_jsonld, ← hlen, this]

/-- Witness for C9: a one-node JSON tree producing one statement; the line
count, the re-decode length and the split total all equal 1. -/
theorem C9_count_matches_split_witness :
    (split_stream 1 allOk ([5, 6] : List Nat) = .ok (2, [(0, [5]), (1, [6])]) ∧
      count_stream ([5, 6] : List Nat) = 2) ∧
    (decode_nt_lines (fun _ => some (⟨"<http://a>", "<http://p>", "\"x\""⟩ : OwnedTriple))
        (jsonld_to_ntriples (.obj [("@id", .str "http://a"), ("http://p", .str "x")])) =
        some [⟨"<http://a>", "<http://p>", "\"x\""⟩] ∧
      split_stream 1 allOk [(⟨"<http://a>", "<http://p>", "\"x\""⟩ : OwnedTriple)] =
        .ok (1, [(0, [⟨"<http://a>", "<http://p>", "\"x\""⟩])]) ∧
      count_records_jsonld (.obj [("@id", .str "http://a"), ("http://p", .str "x")]) = 1) :=
  ⟨⟨rfl, C9_count_matches_split.1 Nat [5, 6] 1 2 [(0, [5]), (1, [6])] rfl⟩,
    rfl, rfl,
    C9_count_matches_split.2 (.obj [("@id", .str "http://a"), ("http://p", .str "x")])
      (fun _ => some ⟨"<http://a>", "<http://p>", "\"x\""⟩)
      [⟨"<http://a>", "<http://p>", "\"x\""⟩] rfl 1 1
      [(0, [⟨"<http://a>", "<http://p>", "\"x\""⟩])] rfl⟩

/-! ## Claim C5 -/

/-- C5 counterexample: the object `"x"@a&b` is dispatched as a
language-tagged literal, but the language tag is written into the
`xml:lang` attribute verbatim — the `&` is NOT entity-escaped as the
claim asserts. -/
theorem C5_rdfxml_child_counterexample :
    rdfxml_child ⟨"<http://s>", "<http://p>", "\"x\"@a&b"⟩ =
      "    <http://p xml:lang=\"a&b\">x</http://p>" ∧
    xml_child_claimed (strip_angles "<http://p>") (objShape "\"x\"@a&b") =
      "    <http://p xml:lang=\"a&amp;b\">x</http://p>" ∧
    rdfxml_child ⟨"<http://s>", "<http://p>", "\"x\"@a&b"⟩ ≠
      xml_child_claimed (strip_angles "<http://p>") (objShape "\"x\"@a&b") :=
  ⟨by decide, by decide, by decide⟩

/-- C5 amended: the child element is chosen by the object's lexical shape
exactly as the claim describes — IRI object → resource-reference
attribute, language-tagged literal → language attribute plus escaped
text, datatype-tagged literal → escaped datatype attribute plus escaped
text, plain literal → escaped text — but the language tag attribute
value is written verbatim, without XML entity escaping (everything else,
the subject attribute included, is escaped). -/
theorem C5_rdfxml_child_amended (t : OwnedTriple) :
    rdfxml_child t =
      xml_child_amended (strip_angles t.predicate) (objShape t.object) ∧
    rdfxml_triple_lines t =
      ["  <rdf:Description rdf:about=\"" ++ xml_escape (strip_angles t.subject)
          ++ "\">",
       xml_child_amended (strip_angles t.predicate) (objShape t.object),
       "  </rdf:Description>"] := by
  have hchild : rdfxml_child t =
      xml_child_amended (strip_angles t.predicate) (objShape t.object) := by
    unfold rdfxml_child objShape
    cases h1 : try_strip_angles t.object with
    | some i => rfl
    | none =>
        cases h2 : try_lang_literal t.object with
        | some pr => cases pr with | mk lit lang => rfl
        | none =>
            cases h3 : try_typed_literal t.object with
            | some pr => cases pr with | mk lit dt => rfl
            | none => rfl
  exact ⟨hchild, by rw [rdfxml_triple_lines, hchild]⟩

/-! ## Claim C6 -/

/-- C6: in the JSON-tree expansion, a node object with neither an
identifier field nor a `"@graph"` field produces no statements; a bare
boolean becomes a literal typed with the XML-schema boolean IRI; a bare
number becomes a literal typed with the XML-schema decimal IRI; and any
other JSON value kind (null, nested array) yields no statement. -/
theorem C6_jsonld_structural_cases :
    (∀ (fuel : Nat) (fields : List (String × Json)) (g : Option String),
      lookupField fields "@graph" = none → lookupField fields "@id" = none →
      extract_node fuel (.obj fields) g = "") ∧
    (∀ (key : String) (b : Bool),
      jsonld_value_to_nt_object key (.bool b) =
        some ("\"" ++ (if b then "true" else "false")
          ++ "\"^^<http://www.w3.org/2001/XMLSchema#boolean>")) ∧
    (∀ (key lit : String),
      jsonld_value_to_nt_object key (.num lit) =
        some ("\"" ++ lit ++ "\"^^<http://www.w3.org/2001/XMLSchema#decimal>")) ∧
    (∀ key : String, jsonld_value_to_nt_object key .null = none) ∧
    (∀ (key : String) (elems : List Json),
      jsonld_value_to_nt_object key (.arr elems) = none) := by
  refine ⟨?_, fun _ _ => rfl, fun _ _ => rfl, fun _ => rfl, fun _ _ => rfl⟩
  intro fuel fields g hgraph hid
  cases fuel with
  | zero => rfl
  | succ n =>
      simp only [extract_node, hgraph, hid]
      rfl

/-- Witness for C6: a node object with a single non-identifier field
produces nothing; the scalar conversions at concrete values. -/
theorem C6_jsonld_structural_cases_witness :
    (lookupField [("http://p", Json.str "x")] "@graph" = none ∧
      lookupField [("http://p", Json.str "x")] "@id" = none ∧
      extract_node 3 (.obj [("http://p", Json.str "x")]) none = "") ∧
    jsonld_value_to_nt_object "k" (.bool true) =
      some "\"true\"^^<http://www.w3.org/2001/XMLSchema#boolean>" ∧
    jsonld_value_to_nt_object "k" (.num "3.5") =
      some "\"3.5\"^^<http://www.w3.org/2001/XMLSchema#decimal>" ∧
    jsonld_value_to_nt_object "k" .null = none ∧
    jsonld_value_to_nt_object "k" (.arr [.str "x"]) = none :=
  ⟨⟨rfl, rfl,
      C6_jsonld_structural_cases.1 3 [("http://p", Json.str "x")] none rfl rfl⟩,
    C6_jsonld_structural_cases.2.1 "k" true,
    C6_jsonld_structural_cases.2.2.1 "k" "3.5",
    C6_jsonld_structural_cases.2.2.2.1 "k",
    C6_jsonld_structural_cases.2.2.2.2 "k" [.str "x"]⟩

/-! ## Claim C3 -/

theorem flatMap_perm_congr {A B : Type} (l : List A) (g1 g2 : A → List B)
    (h : ∀ a ∈ l, (g1 a).Perm (g2 a)) :
    (l.flatMap g1).Perm (l.flatMap g2) := by
  induction l with
  | nil => simp
  | cons a as ih =>
      simp only [List.flatMap_cons]
      exact (h a (by simp)).append (ih (fun x hx => h x (by simp [hx])))

/-- Partitioning a list by a complete, duplicate-free key list is a
permutation of the list. -/
theorem partition_perm {K T : Type} [DecidableEq K] (f : T → K) :
    ∀ (keys : List K) (es : List T), keys.Nodup →
      (∀ e ∈ es, f e ∈ keys) →
      (keys.flatMap (fun k => es.filter (fun e => f e = k))).Perm es := by
  intro keys
  induction keys with
  | nil =>
      intro es _ hmem
      cases es with
      | nil => simp
      | cons e es' => exact absurd (hmem e (by simp)) (by simp)
  | cons k ks ih =>
      intro es hnd hmem
      have hknotin : k ∉ ks := (List.nodup_cons.mp hnd).1
      have hndtail : ks.Nodup := (List.nodup_cons.mp hnd).2
      simp only [List.flatMap_cons]
      have htail : ∀ k' ∈ ks,
          es.filter (fun e => f e = k') =
            (es.filter (fun e => ¬ f e = k)).filter (fun e => f e = k') := by
        intro k' hk'
        have hne : k' ≠ k := fun hh => hknotin (hh ▸ hk')
        rw [List.filter_filter]
        apply List.filter_congr
        intro e _
        by_cases hfe : f e = k'
        · simp [hfe, hne]
        · simp [hfe]
      have hmap : ks.flatMap (fun k' => es.filter (fun e => f e = k')) =
          ks.flatMap (fun k' =>
            (es.filter (fun e => ¬ f e = k)).filter (fun e => f e = k')) := by
        simp only [List.flatMap]
        congr 1
        exact List.map_congr_left htail
      rw [hmap]
      have hih := ih (es.filter (fun e => ¬ f e = k)) hndtail (by
        intro e he
        have hin := List.mem_of_mem_filter he
        have hprop := List.of_mem_filter he
        have hfk : ¬ f e = k := by simpa using hprop
        have := hmem e hin
        simp only [List.mem_cons] at this
        rcases this with h | h
        · exact absurd h hfk
        · exact h)
      refine ((List.Perm.refl _).append hih).trans ?_
      have hperm := List.filter_append_perm (fun e => f e = k) es
      refine List.Perm.trans ?_ hperm
      apply List.Perm.append_left
      apply List.Perm.of_eq
      apply List.filter_congr
      intro e _
      simp [decide_not]

theorem btreeKeys_nodup (l : List String) : (btreeKeys l).Nodup :=
  ((List.perm_insertionSort _ _).nodup_iff).mpr (List.nodup_dedup l)

theorem btreeKeys_mem (l : List String) (x : String) (h : x ∈ l) :
    x ∈ btreeKeys l :=
  ((List.perm_insertionSort _ _).mem_iff).mpr ((List.mem_dedup).mpr h)

/-- The order `write_jsonld` emits a batch's records in (grouped by
subject, then predicate) is a permutation of the batch. -/
theorem write_jsonld_order_perm (ts : List OwnedTriple) :
    (write_jsonld_order ts).Perm ts := by
  simp only [write_jsonld_order]
  have houter := partition_perm (fun t : OwnedTriple => t.subject)
      (btreeKeys (ts.map (fun t => t.subject))) ts
      (btreeKeys_nodup _)
      (fun e he => btreeKeys_mem _ _ (List.mem_map_of_mem _ he))
  refine List.Perm.trans ?_ houter
  apply flatMap_perm_congr
  intro s _
  exact partition_perm (fun t : OwnedTriple => t.predicate)
    (btreeKeys ((ts.filter (fun t => t.subject = s)).map (fun t => t.predicate)))
    (ts.filter (fun t => t.subject = s))
    (btreeKeys_nodup _)
    (fun e he => btreeKeys_mem _ _ (List.mem_map_of_mem _ he))

/-- C3 counterexample: a two-record batch with descending subjects fits in
one chunk; `write_jsonld` emits that chunk grouped by subject (ascending),
so decoding the emitted chunk yields the two records in swapped order —
the concatenation of decoded chunk record sequences is NOT the original
decoded sequence when the output format is JSON-LD. -/
theorem C3_roundtrip_counterexample :
    split_triples 2 allOk
        [⟨"<b>", "<p>", "<o1>"⟩, ⟨"<a>", "<p>", "<o2>"⟩] =
      .ok (2, [(0, [⟨"<b>", "<p>", "<o1>"⟩, ⟨"<a>", "<p>", "<o2>"⟩])]) ∧
    (([(0, [(⟨"<b>", "<p>", "<o1>"⟩ : OwnedTriple), ⟨"<a>", "<p>", "<o2>"⟩])].map
        (fun f => write_jsonld_order f.2)).flatten =
      [⟨"<a>", "<p>", "<o2>"⟩, ⟨"<b>", "<p>", "<o1>"⟩]) ∧
    (([(0, [(⟨"<b>", "<p>", "<o1>"⟩ : OwnedTriple), ⟨"<a>", "<p>", "<o2>"⟩])].map
        (fun f => write_jsonld_order f.2)).flatten ≠
      [⟨"<b>", "<p>", "<o1>"⟩, ⟨"<a>", "<p>", "<o2>"⟩]) :=
  ⟨rfl, by decide, by decide⟩

/-- C3 amended: for every successful split, the chunk record sequences
concatenate (in chunk order) to exactly the decoded input sequence, and
the N-Triples, Turtle, N-Quads, TriG and RDF/XML writers emit their
batch's records one statement-line (or element block) per record in batch
order — so decoding those chunks reproduces the decoded input exactly.
The JSON-LD writer instead emits each chunk's records regrouped by
subject and predicate: a permutation of the chunk, so the concatenation
of decoded JSON-LD chunks is a permutation of the decoded input, but not
always the original order. -/
theorem C3_roundtrip_amended (cs : Nat) :
    (∀ (l : List OwnedTriple) (total : Nat)
      (files : List (Nat × List OwnedTriple)),
      split_triples cs allOk l = .ok (total, files) →
      (files.map Prod.snd).flatten = l ∧
      (∀ f ∈ files, write_ntriples_lines f.2 = f.2.map ntriple_line ∧
        write_turtle_lines f.2 = f.2.map ntriple_line ∧
        write_rdfxml_lines f.2 =
          ["<?xml version=\"1.0\" encoding=\"utf-8\"?>",
           "<rdf:RDF xmlns:rdf=\"http://www.w3.org/1999/02/22-rdf-syntax-ns#\">"]
            ++ f.2.flatMap rdfxml_triple_lines ++ ["</rdf:RDF>"]) ∧
      (∀ f ∈ files, (write_jsonld_order f.2).Perm f.2) ∧
      ((files.map (fun f => write_jsonld_order f.2)).flatten).Perm l) ∧
    (∀ (lq : List OwnedQuad) (total : Nat)
      (files : List (Nat × List OwnedQuad)),
      split_quads cs allOk lq = .ok (total, files) →
      (files.map Prod.snd).flatten = lq ∧
      ∀ f ∈ files, write_nquads_lines f.2 = f.2.map nquad_line ∧
        write_trig_lines f.2 = f.2.map nquad_line) := by
  have hjoin : ∀ (fs : List (Nat × List OwnedTriple)),
      ((fs.map (fun f => write_jsonld_order f.2)).flatten).Perm
        ((fs.map Prod.snd).flatten) := by
    intro fs
    induction fs with
    | nil => simp
    | cons f fs ih =>
        simp only [List.map_cons, List.flatten_cons]
        exact (write_jsonld_order_perm f.2).append ih
  constructor
  · intro l total files h
    rw [split_triples, split_stream_allOk] at h
    obtain ⟨h1, h2⟩ := Prod.mk.injEq _ _ _ _ |>.mp (Except.ok.inj h)
    subst h2
    refine ⟨splitFiles_flatten cs l, fun f _ => ⟨rfl, rfl, rfl⟩,
      fun f _ => write_jsonld_order_perm f.2, ?_⟩
    exact (hjoin _).trans (List.Perm.of_eq (splitFiles_flatten cs l))
  · intro lq total files h
    rw [split_quads, split_stream_allOk] at h
    obtain ⟨h1, h2⟩ := Prod.mk.injEq _ _ _ _ |>.mp (Except.ok.inj h)
    subst h2
    exact ⟨splitFiles_flatten cs lq, fun f _ => ⟨rfl, rfl⟩⟩

/-- Witness for the amended C3 at a concrete two-chunk split. -/
theorem C3_roundtrip_amended_witness :
    (split_triples 1 allOk [(⟨"<b>", "<p>", "<o1>"⟩ : OwnedTriple), ⟨"<a>", "<p>", "<o2>"⟩] =
      .ok (2, [(0, [⟨"<b>", "<p>", "<o1>"⟩]), (1, [⟨"<a>", "<p>", "<o2>"⟩])])) ∧
    (([(0, [(⟨"<b>", "<p>", "<o1>"⟩ : OwnedTriple)]),
        (1, [(⟨"<a>", "<p>", "<o2>"⟩ : OwnedTriple)])].map Prod.snd).flatten =
      [⟨"<b>", "<p>", "<o1>"⟩, ⟨"<a>", "<p>", "<o2>"⟩]) ∧
    (([(0, [(⟨"<b>", "<p>", "<o1>"⟩ : OwnedTriple)]),
        (1, [(⟨"<a>", "<p>", "<o2>"⟩ : OwnedTriple)])].map
        (fun f => write_jsonld_order f.2)).flatten).Perm
      [⟨"<b>", "<p>", "<o1>"⟩, ⟨"<a>", "<p>", "<o2>"⟩] :=
  ⟨rfl,
    ((C3_roundtrip_amended 1).1
      [⟨"<b>", "<p>", "<o1>"⟩, ⟨"<a>", "<p>", "<o2>"⟩] 2
      [(0, [⟨"<b>", "<p>", "<o1>"⟩]), (1, [⟨"<a>", "<p>", "<o2>"⟩])] rfl).1,
    ((C3_roundtrip_amended 1).1
      [⟨"<b>", "<p>", "<o1>"⟩, ⟨"<a>", "<p>", "<o2>"⟩] 2
      [(0, [⟨"<b>", "<p>", "<o1>"⟩]), (1, [⟨"<a>", "<p>", "<o2>"⟩])] rfl).2.2.2⟩

end RdfSplitter
